import Mathlib

/-!
# Symmetric pairs, relations and pair maps

A shallow embedding of `src/support/symmetric.h`: the class templates
`SymmetricPair<T>`, `SymmetricRelation<T>` and `SymmetricPairMap<T, U>`.

* `std::set<T>` is a finite set (`Finset T`).
* `std::map<K, V>` is a finite map with unique keys (`Finmap`); two maps are equal
  exactly when they hold the same keys with the same values, as with `operator==`.
* A member function that mutates its object takes the state and returns the new state.
* A default-constructed `V` is `default` of `Inhabited V` (the empty set for `std::set`,
  zero for `int`).
-/

namespace wasm

/-! ## The standard containers used by the header -/

/-- The container `std::set<T>`. -/
abbrev StdSet (T : Type) := Finset T

/-- The container `std::map<K, V>`. -/
abbrev StdMap (K V : Type) := Finmap (fun _ : K => V)

/-- The call `m.find(k)`: `none` stands for `m.end()`, `some v` for an iterator whose
`second` is `v`. -/
def StdMap.find {K V : Type} [DecidableEq K] (m : StdMap K V) (k : K) : Option V :=
  Finmap.lookup k m

/-- The expression `m[k]`: when `k` is absent an entry with a default-constructed value is
created first. Returns the map afterwards and the value the returned reference points at. -/
def StdMap.subscript {K V : Type} [DecidableEq K] [Inhabited V]
    (m : StdMap K V) (k : K) : StdMap K V × V :=
  match StdMap.find m k with
  | some v => (m, v)
  | none => (Finmap.insert k default m, default)

/-- A write of `v` through the reference that `m[k]` returned. -/
def StdMap.assign {K V : Type} [DecidableEq K] (m : StdMap K V) (k : K) (v : V) : StdMap K V :=
  Finmap.insert k v m

/-- The call `m.erase(k)`. -/
def StdMap.erase {K V : Type} [DecidableEq K] (m : StdMap K V) (k : K) : StdMap K V :=
  Finmap.erase k m

/-! ## SymmetricPair -/

/-- The class `SymmetricPair<T>`, which derives from `std::pair<T, T>`: its only data are the
inherited members `first` and `second`. -/
structure SymmetricPair (T : Type) where
  first : T
  second : T
deriving DecidableEq

/-- The variables that are live while the constructor body of `SymmetricPair` runs: the two
members of the object under construction and the two by-value parameters. -/
structure CtorFrame (T : Type) where
  first : T
  second : T
  a : T
  b : T
deriving DecidableEq

/-- The constructor, statement by statement:
`SymmetricPair(T a, T b) : std::pair<T, T>(a, b) { if (a > b) { std::swap(a, b); } }`.
The base-class initialiser copies the parameters into the members; the body then swaps the
parameters `a` and `b` themselves. -/
def SymmetricPair.ctorFrame {T : Type} [LinearOrder T] (a b : T) : CtorFrame T :=
  let start : CtorFrame T := ⟨a, b, a, b⟩
  if start.a > start.b then
    ⟨start.first, start.second, start.b, start.a⟩
  else
    start

/-- The object that `SymmetricPair<T>(a, b)` constructs: the members as they are when the
constructor body has finished. -/
def SymmetricPair.ctor {T : Type} [LinearOrder T] (a b : T) : SymmetricPair T :=
  let fr := SymmetricPair.ctorFrame a b
  ⟨fr.first, fr.second⟩

/-- The comparison `x < y` of `std::pair`, which `std::map<SymmetricPair<T>, U>` orders its
keys by: lexicographic on `first`, then `second`. -/
def SymmetricPair.lt {T : Type} [LinearOrder T] (x y : SymmetricPair T) : Prop :=
  x.first < y.first ∨ (¬ y.first < x.first ∧ x.second < y.second)

/-! ## SymmetricRelation -/

/-- The class `SymmetricRelation<T>`: its only member is
`std::map<T, std::set<T>> data`. -/
structure SymmetricRelation (T : Type) where
  data : StdMap T (StdSet T)

/-- A freshly constructed relation: `data` is the empty map. -/
def SymmetricRelation.empty {T : Type} : SymmetricRelation T :=
  ⟨∅⟩

/-- The member `void canonicalize(T& a, T& b) { if (a > b) { std::swap(a, b); } }`. The two
reference parameters are returned as the pair of their values after the call. -/
def SymmetricRelation.canonicalize {T : Type} [LinearOrder T] (a b : T) : T × T :=
  if a > b then (b, a) else (a, b)

/-- The member `void insert(T a, T b) { canonicalize(a, b); data[a].insert(b); }`. -/
def SymmetricRelation.insert {T : Type} [LinearOrder T]
    (r : SymmetricRelation T) (a b : T) : SymmetricRelation T :=
  let ab := SymmetricRelation.canonicalize a b
  let ds := StdMap.subscript r.data ab.1
  ⟨StdMap.assign ds.1 ab.1 (Insert.insert ab.2 ds.2)⟩

/-- The member `void erase(T a, T b) { canonicalize(a, b); data[a].erase(b); }`. -/
def SymmetricRelation.erase {T : Type} [LinearOrder T]
    (r : SymmetricRelation T) (a b : T) : SymmetricRelation T :=
  let ab := SymmetricRelation.canonicalize a b
  let ds := StdMap.subscript r.data ab.1
  ⟨StdMap.assign ds.1 ab.1 (Finset.erase ds.2 ab.2)⟩

/-- The member `has`, as a step on the state (it is not declared `const`):
`canonicalize(a, b); auto iter = data.find(a);
return iter != data.end() && iter->second.count(b);`.
Returns the answer and the relation after the call. -/
def SymmetricRelation.hasStep {T : Type} [LinearOrder T]
    (r : SymmetricRelation T) (a b : T) : Bool × SymmetricRelation T :=
  let ab := SymmetricRelation.canonicalize a b
  match StdMap.find r.data ab.1 with
  | none => (false, r)
  | some s => (decide (ab.2 ∈ s), r)

/-- The value that `has(a, b)` returns. -/
def SymmetricRelation.has {T : Type} [LinearOrder T]
    (r : SymmetricRelation T) (a b : T) : Bool :=
  (SymmetricRelation.hasStep r a b).1

/-- A call of one of the two mutating members of `SymmetricRelation`. -/
inductive RelOp (T : Type) where
  | insert (a b : T) : RelOp T
  | erase (a b : T) : RelOp T
deriving DecidableEq

/-- Performs one call on a relation. -/
def SymmetricRelation.step {T : Type} [LinearOrder T]
    (r : SymmetricRelation T) : RelOp T → SymmetricRelation T
  | RelOp.insert a b => SymmetricRelation.insert r a b
  | RelOp.erase a b => SymmetricRelation.erase r a b

/-- Performs a sequence of calls, first to last, starting from `r`. -/
def SymmetricRelation.run {T : Type} [LinearOrder T]
    (r : SymmetricRelation T) (ops : List (RelOp T)) : SymmetricRelation T :=
  ops.foldl SymmetricRelation.step r

/-- The specification of a relation as a set of unordered pairs, in the words of the claim:
the sequence `ops` contains an insert of the unordered pair `{a, b}` (in either argument
order) that no erase of `{a, b}` (in either argument order) follows. -/
def specHas {T : Type} (ops : List (RelOp T)) (a b : T) : Prop :=
  ∃ (before after : List (RelOp T)) (c d : T),
    ops = before ++ RelOp.insert c d :: after ∧ s(c, d) = s(a, b) ∧
      ∀ e f : T, RelOp.erase e f ∈ after → s(e, f) ≠ s(a, b)

/-! ## SymmetricPairMap -/

/-- The class `SymmetricPairMap<T, U>`: its only member is
`std::map<SymmetricPair<T>, U> data`. -/
structure SymmetricPairMap (T U : Type) where
  data : StdMap (SymmetricPair T) U

/-- A freshly constructed pair map: `data` is the empty map. -/
def SymmetricPairMap.empty {T U : Type} : SymmetricPairMap T U :=
  ⟨∅⟩

/-- The member `void insert(T a, T b, U c) { data[SymmetricPair<T>(a, b)] = c; }`. -/
def SymmetricPairMap.insert {T U : Type} [LinearOrder T] [Inhabited U]
    (m : SymmetricPairMap T U) (a b : T) (c : U) : SymmetricPairMap T U :=
  let key := SymmetricPair.ctor a b
  let ds := StdMap.subscript m.data key
  ⟨StdMap.assign ds.1 key c⟩

/-- The member `void erase(T a, T b) { data.erase(SymmetricPair<T>(a, b)); }`. -/
def SymmetricPairMap.erase {T U : Type} [LinearOrder T]
    (m : SymmetricPairMap T U) (a b : T) : SymmetricPairMap T U :=
  ⟨StdMap.erase m.data (SymmetricPair.ctor a b)⟩

/-- The member `U& get(T a, T b) { return data[SymmetricPair<T>(a, b)]; }`. Returns the value
the returned reference points at and the map after the call. -/
def SymmetricPairMap.get {T U : Type} [LinearOrder T] [Inhabited U]
    (m : SymmetricPairMap T U) (a b : T) : U × SymmetricPairMap T U :=
  let ds := StdMap.subscript m.data (SymmetricPair.ctor a b)
  (ds.2, ⟨ds.1⟩)

/-- The states of a pair map that can be reached from a freshly constructed one by calls of
`insert`, `erase` and `get`. -/
inductive SymmetricPairMap.Reachable {T U : Type} [LinearOrder T] [Inhabited U] :
    SymmetricPairMap T U → Prop where
  | fresh : Reachable SymmetricPairMap.empty
  | insert {m : SymmetricPairMap T U} (a b : T) (c : U) :
      Reachable m → Reachable (SymmetricPairMap.insert m a b c)
  | erase {m : SymmetricPairMap T U} (a b : T) :
      Reachable m → Reachable (SymmetricPairMap.erase m a b)
  | get {m : SymmetricPairMap T U} (a b : T) :
      Reachable m → Reachable (SymmetricPairMap.get m a b).2

/-! ## Facts about the constructor, the containers and `canonicalize` -/

/-- What the constructor builds: the members are the arguments in the order given. -/
theorem SymmetricPair.ctor_eq {T : Type} [LinearOrder T] (a b : T) :
    SymmetricPair.ctor a b = ⟨a, b⟩ := by
  unfold SymmetricPair.ctor SymmetricPair.ctorFrame
  by_cases h : a > b <;> simp [h]

/-- Two keys are equivalent under the comparison of `std::pair` (neither is less than the
other) exactly when they are equal, so a map keyed by `SymmetricPair` finds a key by equality. -/
theorem SymmetricPair.equiv_iff_eq {T : Type} [LinearOrder T] (x y : SymmetricPair T) :
    (¬ SymmetricPair.lt x y ∧ ¬ SymmetricPair.lt y x) ↔ x = y := by
  obtain ⟨x1, x2⟩ := x
  obtain ⟨y1, y2⟩ := y
  simp only [SymmetricPair.lt, SymmetricPair.mk.injEq, not_or, not_and, not_lt]
  constructor
  · rintro ⟨⟨h1, h2⟩, h3, h4⟩
    have e : x1 = y1 := le_antisymm h3 h1
    subst e
    exact ⟨rfl, le_antisymm (h4 le_rfl) (h2 le_rfl)⟩
  · rintro ⟨rfl, rfl⟩
    exact ⟨⟨le_rfl, fun _ => le_rfl⟩, le_rfl, fun _ => le_rfl⟩

/-- After `canonicalize` the first variable holds the minimum and the second the maximum. -/
theorem SymmetricRelation.canonicalize_eq {T : Type} [LinearOrder T] (a b : T) :
    SymmetricRelation.canonicalize a b = (min a b, max a b) := by
  unfold SymmetricRelation.canonicalize
  by_cases h : a > b
  · simp [h, min_eq_right h.le, max_eq_left h.le]
  · have h' : a ≤ b := not_lt.mp h
    simp [h, min_eq_left h', max_eq_right h']

/-- The result of `canonicalize` does not depend on the order of the arguments. -/
theorem SymmetricRelation.canonicalize_comm {T : Type} [LinearOrder T] (a b : T) :
    SymmetricRelation.canonicalize a b = SymmetricRelation.canonicalize b a := by
  rw [canonicalize_eq, canonicalize_eq, min_comm, max_comm]

/-- Two argument pairs canonicalize alike exactly when they are the same unordered pair. -/
theorem SymmetricRelation.canonicalize_eq_iff {T : Type} [LinearOrder T] (a b c d : T) :
    SymmetricRelation.canonicalize c d = SymmetricRelation.canonicalize a b ↔
      s(c, d) = s(a, b) := by
  constructor
  · intro h
    rw [canonicalize_eq, canonicalize_eq, Prod.mk.injEq] at h
    rw [Sym2.eq_iff]
    rcases le_total c d with hcd | hcd <;> rcases le_total a b with hab | hab <;>
      simp only [min_eq_left, min_eq_right, max_eq_left, max_eq_right, hcd, hab] at h <;>
      tauto
  · intro h
    rcases Sym2.eq_iff.mp h with ⟨rfl, rfl⟩ | ⟨rfl, rfl⟩
    · rfl
    · exact canonicalize_comm _ _

/-- The value `m[k]` refers to: the stored one, or the default one when `k` was absent. -/
theorem StdMap.subscript_snd {K V : Type} [DecidableEq K] [Inhabited V]
    (m : StdMap K V) (k : K) :
    (StdMap.subscript m k).2 = (StdMap.find m k).getD default := by
  unfold StdMap.subscript
  cases h : StdMap.find m k <;> simp

/-- After `m[k]` the key `k` is present. -/
theorem StdMap.find_subscript_self {K V : Type} [DecidableEq K] [Inhabited V]
    (m : StdMap K V) (k : K) :
    StdMap.find (StdMap.subscript m k).1 k = some ((StdMap.find m k).getD default) := by
  unfold StdMap.subscript
  cases h : StdMap.find m k with
  | none => simp [StdMap.find]
  | some v => simpa using h

/-- The expression `m[k]` leaves every other key as it was. -/
theorem StdMap.find_subscript_of_ne {K V : Type} [DecidableEq K] [Inhabited V]
    (m : StdMap K V) {k j : K} (h : j ≠ k) :
    StdMap.find (StdMap.subscript m k).1 j = StdMap.find m j := by
  unfold StdMap.subscript
  cases StdMap.find m k with
  | none => simp [StdMap.find, Finmap.lookup_insert_of_ne _ h]
  | some v => rfl

/-- The expression `m[k]` leaves the map as it was when `k` is present. -/
theorem StdMap.subscript_fst_of_find {K V : Type} [DecidableEq K] [Inhabited V]
    (m : StdMap K V) {k : K} {v : V} (h : StdMap.find m k = some v) :
    (StdMap.subscript m k).1 = m := by
  unfold StdMap.subscript
  rw [h]

/-- The expression `m[k]` adds a default entry when `k` is absent. -/
theorem StdMap.subscript_fst_of_find_none {K V : Type} [DecidableEq K] [Inhabited V]
    (m : StdMap K V) {k : K} (h : StdMap.find m k = none) :
    (StdMap.subscript m k).1 = Finmap.insert k default m := by
  unfold StdMap.subscript
  rw [h]

/-- A write through `m[k]` is read back at `k`. -/
theorem StdMap.find_assign_self {K V : Type} [DecidableEq K]
    (m : StdMap K V) (k : K) (v : V) :
    StdMap.find (StdMap.assign m k v) k = some v := by
  simp [StdMap.find, StdMap.assign]

/-- A write through `m[k]` leaves every other key as it was. -/
theorem StdMap.find_assign_of_ne {K V : Type} [DecidableEq K]
    (m : StdMap K V) {k j : K} (v : V) (h : j ≠ k) :
    StdMap.find (StdMap.assign m k v) j = StdMap.find m j := by
  simp [StdMap.find, StdMap.assign, Finmap.lookup_insert_of_ne _ h]

/-! ## Facts about `SymmetricRelation` -/

/-- The answer of `has(a, b)`: the maximum is in the bucket of the minimum, where a missing
bucket counts as empty. -/
theorem SymmetricRelation.has_iff {T : Type} [LinearOrder T]
    (r : SymmetricRelation T) (a b : T) :
    SymmetricRelation.has r a b = true ↔
      max a b ∈ (StdMap.find r.data (min a b)).getD ∅ := by
  unfold SymmetricRelation.has SymmetricRelation.hasStep
  rw [canonicalize_eq]
  cases h : StdMap.find r.data (min a b) <;> simp [h]

/-- The buckets after `insert(a, b)`. -/
theorem SymmetricRelation.find_insert {T : Type} [LinearOrder T]
    (r : SymmetricRelation T) (a b k : T) :
    StdMap.find (SymmetricRelation.insert r a b).data k =
      if k = min a b then
        some (Insert.insert (max a b) ((StdMap.find r.data (min a b)).getD ∅))
      else StdMap.find r.data k := by
  unfold SymmetricRelation.insert
  rw [canonicalize_eq]
  by_cases h : k = min a b
  · subst h
    simp only [StdMap.find_assign_self, StdMap.subscript_snd, if_true]
    rfl
  · simp only [h, if_false, StdMap.find_assign_of_ne _ _ h, StdMap.find_subscript_of_ne _ h]

/-- The buckets after `erase(a, b)`. -/
theorem SymmetricRelation.find_erase {T : Type} [LinearOrder T]
    (r : SymmetricRelation T) (a b k : T) :
    StdMap.find (SymmetricRelation.erase r a b).data k =
      if k = min a b then
        some (Finset.erase ((StdMap.find r.data (min a b)).getD ∅) (max a b))
      else StdMap.find r.data k := by
  unfold SymmetricRelation.erase
  rw [canonicalize_eq]
  by_cases h : k = min a b
  · subst h
    simp only [StdMap.find_assign_self, StdMap.subscript_snd, if_true]
    rfl
  · simp only [h, if_false, StdMap.find_assign_of_ne _ _ h, StdMap.find_subscript_of_ne _ h]

/-- Two unordered pairs are equal exactly when their minima and their maxima agree. -/
theorem SymmetricRelation.sym2_eq_iff {T : Type} [LinearOrder T] (a b c d : T) :
    s(c, d) = s(a, b) ↔ min c d = min a b ∧ max c d = max a b := by
  rw [← canonicalize_eq_iff, canonicalize_eq, canonicalize_eq, Prod.mk.injEq]

/-- The answers of `has` after `insert(a, b)`. -/
theorem SymmetricRelation.has_insert_iff {T : Type} [LinearOrder T]
    (r : SymmetricRelation T) (a b c d : T) :
    SymmetricRelation.has (SymmetricRelation.insert r a b) c d = true ↔
      s(c, d) = s(a, b) ∨ SymmetricRelation.has r c d = true := by
  rw [has_iff, has_iff, find_insert, sym2_eq_iff]
  by_cases h : min c d = min a b
  · simp [h]
  · simp [h]

/-- The answers of `has` after `erase(a, b)`. -/
theorem SymmetricRelation.has_erase_iff {T : Type} [LinearOrder T]
    (r : SymmetricRelation T) (a b c d : T) :
    SymmetricRelation.has (SymmetricRelation.erase r a b) c d = true ↔
      s(c, d) ≠ s(a, b) ∧ SymmetricRelation.has r c d = true := by
  rw [has_iff, has_iff, find_erase, Ne, sym2_eq_iff]
  by_cases h : min c d = min a b
  · simp [h]
  · simp [h]

/-- The answer of `has` depends on the unordered pair only. -/
theorem SymmetricRelation.has_congr {T : Type} [LinearOrder T]
    (r : SymmetricRelation T) {a b c d : T} (h : s(c, d) = s(a, b)) :
    SymmetricRelation.has r c d = SymmetricRelation.has r a b := by
  obtain ⟨h1, h2⟩ := (sym2_eq_iff a b c d).mp h
  rw [Bool.eq_iff_iff, has_iff, has_iff, h1, h2]

/-! ## Sequences of calls and the set of unordered pairs -/

/-- The empty sequence contains no insert. -/
theorem specHas_nil {T : Type} (a b : T) : ¬ specHas ([] : List (RelOp T)) a b := by
  rintro ⟨before, after, c, d, h, -⟩
  cases before <;> simp at h

/-- The specification on a sequence that starts with an insert. -/
theorem specHas_cons_insert {T : Type} (ops : List (RelOp T)) (c d a b : T) :
    specHas (RelOp.insert c d :: ops) a b ↔
      specHas ops a b ∨
        (s(c, d) = s(a, b) ∧ ∀ e f : T, RelOp.erase e f ∈ ops → s(e, f) ≠ s(a, b)) := by
  constructor
  · rintro ⟨before, after, c', d', h, hs, hne⟩
    cases before with
    | nil =>
      simp only [List.nil_append, List.cons.injEq, RelOp.insert.injEq] at h
      obtain ⟨⟨rfl, rfl⟩, rfl⟩ := h
      exact Or.inr ⟨hs, hne⟩
    | cons x before' =>
      simp only [List.cons_append, List.cons.injEq] at h
      exact Or.inl ⟨before', after, c', d', h.2, hs, hne⟩
  · rintro (⟨before, after, c', d', h, hs, hne⟩ | ⟨hs, hne⟩)
    · exact ⟨RelOp.insert c d :: before, after, c', d', by simp [h], hs, hne⟩
    · exact ⟨[], ops, c, d, rfl, hs, hne⟩

/-- The specification on a sequence that starts with an erase. -/
theorem specHas_cons_erase {T : Type} (ops : List (RelOp T)) (c d a b : T) :
    specHas (RelOp.erase c d :: ops) a b ↔ specHas ops a b := by
  constructor
  · rintro ⟨before, after, c', d', h, hs, hne⟩
    cases before with
    | nil => simp at h
    | cons x before' =>
      simp only [List.cons_append, List.cons.injEq] at h
      exact ⟨before', after, c', d', h.2, hs, hne⟩
  · rintro ⟨before, after, c', d', h, hs, hne⟩
    exact ⟨RelOp.erase c d :: before, after, c', d', by simp [h], hs, hne⟩

/-- The answer of `has(a, b)` after a sequence of calls from any state: either the sequence
holds an insert of the pair that no erase of it follows, or the pair was present at the start and
the sequence holds no erase of it. -/
theorem SymmetricRelation.has_run_iff {T : Type} [LinearOrder T]
    (ops : List (RelOp T)) (r : SymmetricRelation T) (a b : T) :
    SymmetricRelation.has (SymmetricRelation.run r ops) a b = true ↔
      specHas ops a b ∨
        (SymmetricRelation.has r a b = true ∧
          ∀ e f : T, RelOp.erase e f ∈ ops → s(e, f) ≠ s(a, b)) := by
  induction ops generalizing r with
  | nil => simp [SymmetricRelation.run, specHas_nil]
  | cons op ops ih =>
    have hrun : SymmetricRelation.run r (op :: ops) =
        SymmetricRelation.run (SymmetricRelation.step r op) ops := rfl
    rw [hrun, ih]
    cases op with
    | insert c d =>
      have hstep := (has_insert_iff r c d a b).trans (or_congr_left eq_comm)
      simp only [SymmetricRelation.step, hstep, specHas_cons_insert, List.mem_cons,
        false_or, reduceCtorEq]
      tauto
    | erase c d =>
      have hstep := (has_erase_iff r c d a b).trans (and_congr_left' ne_comm)
      simp only [SymmetricRelation.step, hstep, specHas_cons_erase, List.mem_cons,
        RelOp.erase.injEq]
      constructor
      · rintro (h | ⟨⟨h1, h2⟩, h3⟩)
        · exact Or.inl h
        · refine Or.inr ⟨h2, ?_⟩
          rintro e f (⟨rfl, rfl⟩ | hm)
          · exact h1
          · exact h3 e f hm
      · rintro (h | ⟨h1, h2⟩)
        · exact Or.inl h
        · exact Or.inr ⟨⟨h2 c d (Or.inl ⟨rfl, rfl⟩), h1⟩, fun e f hm => h2 e f (Or.inr hm)⟩

/-! ## Facts about `SymmetricPairMap` -/

/-- A key is absent after `m.erase(k)`. -/
theorem StdMap.find_erase_self {K V : Type} [DecidableEq K] (m : StdMap K V) (k : K) :
    StdMap.find (StdMap.erase m k) k = none := by
  simp [StdMap.find, StdMap.erase]

/-- The value that `get(a, b)` returns: the one stored under the key `SymmetricPair<T>(a, b)`,
or the default one when that key is absent. -/
theorem SymmetricPairMap.get_fst {T U : Type} [LinearOrder T] [Inhabited U]
    (m : SymmetricPairMap T U) (a b : T) :
    (SymmetricPairMap.get m a b).1 =
      (StdMap.find m.data (SymmetricPair.ctor a b)).getD default := by
  unfold SymmetricPairMap.get
  exact StdMap.subscript_snd m.data _

/-- The key `SymmetricPair<T>(a, b)` holds `c` after `insert(a, b, c)`. -/
theorem SymmetricPairMap.find_insert_self {T U : Type} [LinearOrder T] [Inhabited U]
    (m : SymmetricPairMap T U) (a b : T) (c : U) :
    StdMap.find (SymmetricPairMap.insert m a b c).data (SymmetricPair.ctor a b) = some c := by
  unfold SymmetricPairMap.insert
  exact StdMap.find_assign_self _ _ _

/-- After `erase(a, b)` the call `get(a, b)` returns the default value. -/
theorem SymmetricPairMap.get_erase_self {T U : Type} [LinearOrder T] [Inhabited U]
    (m : SymmetricPairMap T U) (a b : T) :
    (SymmetricPairMap.get (SymmetricPairMap.erase m a b) a b).1 = default := by
  rw [get_fst]
  unfold SymmetricPairMap.erase
  rw [StdMap.find_erase_self]
  rfl

/-- The canonical-storage property is kept by one call of `insert` or `erase`. -/
theorem SymmetricRelation.canonical_step {T : Type} [LinearOrder T]
    (r : SymmetricRelation T) (op : RelOp T)
    (h : ∀ (k : T) (s : StdSet T) (v : T), StdMap.find r.data k = some s → v ∈ s → k ≤ v) :
    ∀ (k : T) (s : StdSet T) (v : T),
      StdMap.find (SymmetricRelation.step r op).data k = some s → v ∈ s → k ≤ v := by
  intro k s v hk hv
  have hold : ∀ v : T, v ∈ (StdMap.find r.data k).getD ∅ → k ≤ v := by
    intro w hw
    cases hf : StdMap.find r.data k with
    | none => simp [hf] at hw
    | some t =>
      rw [hf] at hw
      exact h k t w hf hw
  cases op with
  | insert a b =>
    simp only [SymmetricRelation.step, find_insert] at hk
    by_cases hkm : k = min a b
    · subst hkm
      simp only [if_true, Option.some.injEq] at hk
      subst hk
      rcases Finset.mem_insert.mp hv with rfl | hv'
      · exact min_le_max
      · exact hold v hv'
    · simp only [hkm, if_false] at hk
      exact h k s v hk hv
  | erase a b =>
    simp only [SymmetricRelation.step, find_erase] at hk
    by_cases hkm : k = min a b
    · subst hkm
      simp only [if_true, Option.some.injEq] at hk
      subst hk
      exact hold v (Finset.mem_of_mem_erase hv)
    · simp only [hkm, if_false] at hk
      exact h k s v hk hv

/-- The canonical-storage property is kept by every sequence of calls. -/
theorem SymmetricRelation.canonical_run {T : Type} [LinearOrder T]
    (ops : List (RelOp T)) (r : SymmetricRelation T)
    (h : ∀ (k : T) (s : StdSet T) (v : T), StdMap.find r.data k = some s → v ∈ s → k ≤ v) :
    ∀ (k : T) (s : StdSet T) (v : T),
      StdMap.find (SymmetricRelation.run r ops).data k = some s → v ∈ s → k ≤ v := by
  induction ops generalizing r with
  | nil => exact h
  | cons op ops ih => exact ih (SymmetricRelation.step r op) (canonical_step r op h)

/-- What `get(a, b)` does on the key `SymmetricPair<T>(a, b)` that it builds. When the map
holds no entry under that key, it returns the default value and the map afterwards holds the
default value under that key, every other key being as before; when the map holds `v` under
that key, it returns `v` and leaves the map unchanged. -/
theorem SymmetricPairMap.get_on_key {T U : Type} [LinearOrder T] [Inhabited U]
    (m : SymmetricPairMap T U) (a b : T) :
    (StdMap.find m.data (SymmetricPair.ctor a b) = none →
        (SymmetricPairMap.get m a b).1 = default ∧
          StdMap.find (SymmetricPairMap.get m a b).2.data (SymmetricPair.ctor a b) =
            some default ∧
          ∀ k : SymmetricPair T, k ≠ SymmetricPair.ctor a b →
            StdMap.find (SymmetricPairMap.get m a b).2.data k = StdMap.find m.data k) ∧
      (∀ v : U, StdMap.find m.data (SymmetricPair.ctor a b) = some v →
        (SymmetricPairMap.get m a b).1 = v ∧ SymmetricPairMap.get m a b = (v, m)) := by
  constructor
  · intro h
    refine ⟨?_, ?_, fun k hk => ?_⟩
    · rw [get_fst, h]
      rfl
    · have := StdMap.find_subscript_self m.data (SymmetricPair.ctor a b)
      rw [h] at this
      exact this
    · exact StdMap.find_subscript_of_ne m.data hk
  · intro v h
    have h1 : (SymmetricPairMap.get m a b).1 = v := by
      rw [get_fst, h]
      rfl
    refine ⟨h1, Prod.ext h1 ?_⟩
    show SymmetricPairMap.mk (StdMap.subscript m.data (SymmetricPair.ctor a b)).1 = m
    rw [StdMap.subscript_fst_of_find m.data h]

/-! ## The claims -/

/-- C1, evaluated on the code: `SymmetricPair<int>(1, 2)` holds `(1, 2)` and
`SymmetricPair<int>(2, 1)` holds `(2, 1)`, so the two objects differ. The constructor swaps its
parameters after they were copied into the members, which leaves the members as given. -/
theorem SymmetricPair.ctor_swapped_arguments_differ :
    SymmetricPair.ctor (1 : Int) 2 = ⟨1, 2⟩ ∧ SymmetricPair.ctor (2 : Int) 1 = ⟨2, 1⟩ ∧
      SymmetricPair.ctor (1 : Int) 2 ≠ SymmetricPair.ctor (2 : Int) 1 := by
  decide

/-- C2, evaluated on the code: `SymmetricPair<int>(2, 1)` has `first = 2`, which is not
`min(2, 1) = 1`, and `second = 1`, which is not `max(2, 1) = 2`; its `first` is greater than
its `second`. -/
theorem SymmetricPair.ctor_first_not_min :
    (SymmetricPair.ctor (2 : Int) 1).first = 2 ∧ min (2 : Int) 1 = 1 ∧
      (SymmetricPair.ctor (2 : Int) 1).second = 1 ∧ max (2 : Int) 1 = 2 ∧
      ¬ (SymmetricPair.ctor (2 : Int) 1).first ≤ (SymmetricPair.ctor (2 : Int) 1).second := by
  decide

/-- C3, evaluated on the code: on an empty `SymmetricPairMap<int, int>`, after
`insert(1, 2, 42)` the call `get(2, 1)` returns the default value `0`, not `42`. -/
theorem SymmetricPairMap.get_swapped_after_insert :
    (SymmetricPairMap.get
      (SymmetricPairMap.insert (SymmetricPairMap.empty : SymmetricPairMap Int Int) 1 2 42)
      2 1).1 = 0 := by
  decide

/-- C4, evaluated on the code: on an empty `SymmetricPairMap<int, int>`, after
`insert(1, 2, 10); insert(2, 1, 20)` the call `get(1, 2)` returns `10`, the value of the
first insert, not `20`. -/
theorem SymmetricPairMap.get_after_swapped_second_insert :
    (SymmetricPairMap.get
      (SymmetricPairMap.insert
        (SymmetricPairMap.insert (SymmetricPairMap.empty : SymmetricPairMap Int Int) 1 2 10)
        2 1 20)
      1 2).1 = 10 := by
  decide

/-- C5, evaluated on the code: the state reached from an empty `SymmetricPairMap<int, int>`
by `insert(1, 2, 10); insert(2, 1, 20)` stores both the key `(1, 2)` and the key `(2, 1)`,
two entries for one unordered pair, and the stored key `(2, 1)` has `first > second`. -/
theorem SymmetricPairMap.reachable_stores_both_orders :
    SymmetricPairMap.Reachable
        (SymmetricPairMap.insert
          (SymmetricPairMap.insert (SymmetricPairMap.empty : SymmetricPairMap Int Int) 1 2 10)
          2 1 20) ∧
      (⟨1, 2⟩ : SymmetricPair Int) ∈
        (SymmetricPairMap.insert
          (SymmetricPairMap.insert (SymmetricPairMap.empty : SymmetricPairMap Int Int) 1 2 10)
          2 1 20).data.keys ∧
      (⟨2, 1⟩ : SymmetricPair Int) ∈
        (SymmetricPairMap.insert
          (SymmetricPairMap.insert (SymmetricPairMap.empty : SymmetricPairMap Int Int) 1 2 10)
          2 1 20).data.keys ∧
      ¬ (⟨2, 1⟩ : SymmetricPair Int).first ≤ (⟨2, 1⟩ : SymmetricPair Int).second :=
  ⟨SymmetricPairMap.Reachable.insert 2 1 20
      (SymmetricPairMap.Reachable.insert 1 2 10 SymmetricPairMap.Reachable.fresh),
    by decide, by decide, by decide⟩

/-- C6: for every relation state `r` and all `a`, `b`, after `r.insert(a, b)` both
`has(a, b)` and `has(b, a)` return true. -/
theorem SymmetricRelation.has_after_insert {T : Type} [LinearOrder T]
    (r : SymmetricRelation T) (a b : T) :
    SymmetricRelation.has (SymmetricRelation.insert r a b) a b = true ∧
      SymmetricRelation.has (SymmetricRelation.insert r a b) b a = true :=
  ⟨(has_insert_iff r a b a b).mpr (Or.inl rfl),
    (has_insert_iff r a b b a).mpr (Or.inl Sym2.eq_swap)⟩

/-- C7: for every relation state `r` and all `a`, `b`, after `r.insert(a, b)` followed by
`r.erase(b, a)` the call `has(a, b)` returns false. -/
theorem SymmetricRelation.has_after_insert_erase_swapped {T : Type} [LinearOrder T]
    (r : SymmetricRelation T) (a b : T) :
    SymmetricRelation.has
      (SymmetricRelation.erase (SymmetricRelation.insert r a b) b a) a b = false := by
  rw [Bool.eq_false_iff, Ne, has_erase_iff]
  exact fun h => h.1 Sym2.eq_swap

/-- C8: a relation refines a set of unordered pairs. For every sequence `ops` of insert and
erase calls applied to an empty relation and all `a`, `b`: `has(a, b)` returns true exactly
when `ops` contains an insert of `{a, b}` that no erase of `{a, b}` follows (arguments in
either order); an insert or erase of any other unordered pair `{c, d}` leaves `has(a, b)` as
it was, in every state; and after `insert(1, 2)` on an empty relation `has(2, 1)` is true and
`has(1, 3)` is false. -/
theorem SymmetricRelation.refines_unordered_pair_set {T : Type} [LinearOrder T]
    (ops : List (RelOp T)) (a b : T) :
    (SymmetricRelation.has (SymmetricRelation.run SymmetricRelation.empty ops) a b = true ↔
        specHas ops a b) ∧
      (∀ (r : SymmetricRelation T) (c d : T), s(c, d) ≠ s(a, b) →
        SymmetricRelation.has (SymmetricRelation.insert r c d) a b =
            SymmetricRelation.has r a b ∧
          SymmetricRelation.has (SymmetricRelation.erase r c d) a b =
            SymmetricRelation.has r a b) ∧
      (SymmetricRelation.has
          (SymmetricRelation.insert (SymmetricRelation.empty : SymmetricRelation Int) 1 2)
          2 1 = true ∧
        SymmetricRelation.has
          (SymmetricRelation.insert (SymmetricRelation.empty : SymmetricRelation Int) 1 2)
          1 3 = false) := by
  refine ⟨?_, ?_, by decide⟩
  · rw [has_run_iff]
    have hempty : SymmetricRelation.has (SymmetricRelation.empty : SymmetricRelation T) a b
        = false := by
      rw [Bool.eq_false_iff, Ne, has_iff]
      simp [SymmetricRelation.empty, StdMap.find]
    simp [hempty]
  · intro r c d hne
    constructor
    · rw [Bool.eq_iff_iff, has_insert_iff]
      exact ⟨fun h => h.resolve_left (fun e => hne e.symm), Or.inr⟩
    · rw [Bool.eq_iff_iff, has_erase_iff]
      exact ⟨fun h => h.2, fun h => ⟨fun e => hne e.symm, h⟩⟩

/-- A run of C8 on a concrete sequence: after
`insert(1, 2); erase(2, 1); insert(2, 1); insert(3, 4); erase(4, 5)` the call `has(1, 2)`
returns true, as the specification says. -/
theorem SymmetricRelation.refines_unordered_pair_set_witness :
    SymmetricRelation.has
        (SymmetricRelation.run (SymmetricRelation.empty : SymmetricRelation Int)
          [RelOp.insert 1 2, RelOp.erase 2 1, RelOp.insert 2 1, RelOp.insert 3 4,
            RelOp.erase 4 5]) 1 2 = true ∧
      specHas [RelOp.insert (1 : Int) 2, RelOp.erase 2 1, RelOp.insert 2 1, RelOp.insert 3 4,
        RelOp.erase 4 5] 1 2 :=
  ⟨by decide,
    (SymmetricRelation.refines_unordered_pair_set
      [RelOp.insert (1 : Int) 2, RelOp.erase 2 1, RelOp.insert 2 1, RelOp.insert 3 4,
        RelOp.erase 4 5] 1 2).1.mp (by decide)⟩

/-- C9: `insert` is idempotent on the stored state. For every relation state `r` and all
`a`, `b`, the mapping `data` after `r.insert(a, b); r.insert(a, b)` equals `data` after one
`r.insert(a, b)`, and so does `data` after `r.insert(a, b); r.insert(b, a)`. -/
theorem SymmetricRelation.insert_idempotent {T : Type} [LinearOrder T]
    (r : SymmetricRelation T) (a b : T) :
    (SymmetricRelation.insert (SymmetricRelation.insert r a b) a b).data =
        (SymmetricRelation.insert r a b).data ∧
      (SymmetricRelation.insert (SymmetricRelation.insert r a b) b a).data =
        (SymmetricRelation.insert r a b).data := by
  have key : ∀ k : T,
      StdMap.find (SymmetricRelation.insert (SymmetricRelation.insert r a b) a b).data k =
        StdMap.find (SymmetricRelation.insert r a b).data k := by
    intro k
    rw [find_insert (SymmetricRelation.insert r a b) a b k, find_insert r a b k,
      find_insert r a b (min a b)]
    by_cases h : k = min a b <;> simp [h]
  constructor
  · exact Finmap.ext_lookup key
  · refine Finmap.ext_lookup fun k => ?_
    have hk := key k
    rw [find_insert (SymmetricRelation.insert r a b) a b k] at hk
    have hb := find_insert (SymmetricRelation.insert r a b) b a k
    rw [min_comm b a, max_comm b a] at hb
    exact hb.trans hk

/-- C10, the claim as stated fails: on an empty `SymmetricRelation<int>` the edge `(1, 2)` is
absent, and after `erase(1, 2)` the mapping `data` is no longer the empty map: it holds the
key `1` with an empty set. -/
theorem SymmetricRelation.erase_absent_changes_data :
    SymmetricRelation.has (SymmetricRelation.empty : SymmetricRelation Int) 1 2 = false ∧
      (SymmetricRelation.erase (SymmetricRelation.empty : SymmetricRelation Int) 1 2).data ≠
        (SymmetricRelation.empty : SymmetricRelation Int).data ∧
      StdMap.find
        (SymmetricRelation.erase (SymmetricRelation.empty : SymmetricRelation Int) 1 2).data 1
        = some ∅ := by
  decide

/-- C10, amended: for every relation state `r` and all `a`, `b` such that `has(a, b)` is
false, after `r.erase(a, b)` every query `has(c, d)` answers as before; the mapping `data` is
equal to the one before the call when `min(a, b)` is one of its keys, and otherwise it is the
one before the call with one more entry, `min(a, b)` with an empty set. -/
theorem SymmetricRelation.erase_absent {T : Type} [LinearOrder T]
    (r : SymmetricRelation T) (a b : T) (h : SymmetricRelation.has r a b = false) :
    (∀ c d : T, SymmetricRelation.has (SymmetricRelation.erase r a b) c d =
        SymmetricRelation.has r c d) ∧
      (min a b ∈ r.data → (SymmetricRelation.erase r a b).data = r.data) ∧
      (min a b ∉ r.data →
        (SymmetricRelation.erase r a b).data = Finmap.insert (min a b) ∅ r.data) := by
  refine ⟨fun c d => ?_, fun hmem => ?_, fun hmem => ?_⟩
  · rw [Bool.eq_iff_iff, has_erase_iff]
    refine ⟨fun hc => hc.2, fun hc => ⟨fun e => ?_, hc⟩⟩
    rw [has_congr r e, h] at hc
    exact Bool.false_ne_true hc
  · refine Finmap.ext_lookup fun k => ?_
    have hk := find_erase r a b k
    obtain ⟨s, hs⟩ := Finmap.mem_iff.mp hmem
    have hs' : StdMap.find r.data (min a b) = some s := hs
    have hnot : max a b ∉ s := by
      have := (has_iff r a b).not.mp (by simp [h])
      simpa [hs'] using this
    by_cases hkm : k = min a b
    · subst hkm
      rw [hs'] at hk
      simp only [if_true, Option.getD_some, Finset.erase_eq_of_not_mem hnot] at hk
      exact hk.trans hs'.symm
    · simp only [hkm, if_false] at hk
      exact hk
  · refine Finmap.ext_lookup fun k => ?_
    have hk := find_erase r a b k
    have hnone : StdMap.find r.data (min a b) = none := Finmap.lookup_eq_none.mpr hmem
    by_cases hkm : k = min a b
    · subst hkm
      rw [hnone] at hk
      simp only [if_true, Option.getD_none, Finset.erase_empty] at hk
      exact hk.trans (Finmap.lookup_insert r.data).symm
    · simp only [hkm, if_false] at hk
      exact hk.trans (Finmap.lookup_insert_of_ne r.data hkm).symm

/-- C10, amended, at a concrete input: in the relation that holds the edge `(1, 2)` the edge
`(1, 3)` is absent while `1` is a key, and `erase(1, 3)` leaves every answer of `has` and the
mapping `data` as they were. -/
theorem SymmetricRelation.erase_absent_witness :
    SymmetricRelation.has
        (SymmetricRelation.insert (SymmetricRelation.empty : SymmetricRelation Int) 1 2)
        1 3 = false ∧
      min (1 : Int) 3 ∈
        (SymmetricRelation.insert (SymmetricRelation.empty : SymmetricRelation Int) 1 2).data ∧
      (∀ c d : Int,
        SymmetricRelation.has
            (SymmetricRelation.erase
              (SymmetricRelation.insert (SymmetricRelation.empty : SymmetricRelation Int) 1 2)
              1 3) c d =
          SymmetricRelation.has
            (SymmetricRelation.insert (SymmetricRelation.empty : SymmetricRelation Int) 1 2)
            c d) ∧
      (SymmetricRelation.erase
          (SymmetricRelation.insert (SymmetricRelation.empty : SymmetricRelation Int) 1 2)
          1 3).data =
        (SymmetricRelation.insert (SymmetricRelation.empty : SymmetricRelation Int) 1 2).data :=
  ⟨by decide, by decide,
    (SymmetricRelation.erase_absent
      (SymmetricRelation.insert (SymmetricRelation.empty : SymmetricRelation Int) 1 2)
      1 3 (by decide)).1,
    (SymmetricRelation.erase_absent
      (SymmetricRelation.insert (SymmetricRelation.empty : SymmetricRelation Int) 1 2)
      1 3 (by decide)).2.1 (by decide)⟩

/-- C11: for every pair map state `m` and all `a`, `b`, after `m.erase(a, b)` the next
`m.get(a, b)` returns the default-constructed value, whatever was stored before; so after
`insert("x", "y", 42); erase("x", "y")` on an empty `SymmetricPairMap<string, int>` the call
`get("x", "y")` returns `0`. -/
theorem SymmetricPairMap.get_after_erase {T U : Type} [LinearOrder T] [Inhabited U]
    (m : SymmetricPairMap T U) (a b : T) :
    (SymmetricPairMap.get (SymmetricPairMap.erase m a b) a b).1 = default ∧
      (SymmetricPairMap.get
        (SymmetricPairMap.erase
          (SymmetricPairMap.insert (SymmetricPairMap.empty : SymmetricPairMap String Int)
            "x" "y" 42)
          "x" "y")
        "x" "y").1 = 0 :=
  ⟨get_erase_self m a b, get_erase_self _ "x" "y"⟩

/-- C12, evaluated on the code: on an empty `SymmetricPairMap<int, int>`, after
`insert(1, 2, 42); erase(2, 1)` the call `get(1, 2)` still returns `42`, not the default
value `0`: the erase looked for the key `(2, 1)` and removed nothing. -/
theorem SymmetricPairMap.get_after_swapped_erase :
    (SymmetricPairMap.get
      (SymmetricPairMap.erase
        (SymmetricPairMap.insert (SymmetricPairMap.empty : SymmetricPairMap Int Int) 1 2 42)
        2 1)
      1 2).1 = 42 := by
  decide

/-- C13, evaluated on the code: the `SymmetricPairMap<int, int>` reached from the empty map by
`insert(1, 2, 42)` holds `42` for the unordered pair of `1` and `2`, stored under the key
`(1, 2)`. The call `get(2, 1)` on it returns the default value `0`, not the stored `42`, and
does not leave the map unchanged: afterwards the map holds a second key `(2, 1)` with `0`
next to the key `(1, 2)` with `42`. -/
theorem SymmetricPairMap.get_swapped_adds_second_key :
    StdMap.find
        (SymmetricPairMap.insert (SymmetricPairMap.empty : SymmetricPairMap Int Int)
          1 2 42).data ⟨1, 2⟩ = some 42 ∧
      (SymmetricPairMap.get
        (SymmetricPairMap.insert (SymmetricPairMap.empty : SymmetricPairMap Int Int) 1 2 42)
        2 1).1 = 0 ∧
      (SymmetricPairMap.get
        (SymmetricPairMap.insert (SymmetricPairMap.empty : SymmetricPairMap Int Int) 1 2 42)
        2 1).2.data ≠
        (SymmetricPairMap.insert (SymmetricPairMap.empty : SymmetricPairMap Int Int)
          1 2 42).data ∧
      StdMap.find
        (SymmetricPairMap.get
          (SymmetricPairMap.insert (SymmetricPairMap.empty : SymmetricPairMap Int Int) 1 2 42)
          2 1).2.data ⟨2, 1⟩ = some 0 ∧
      StdMap.find
        (SymmetricPairMap.get
          (SymmetricPairMap.insert (SymmetricPairMap.empty : SymmetricPairMap Int Int) 1 2 42)
          2 1).2.data ⟨1, 2⟩ = some 42 := by
  decide

/-- C14: for every relation state `r` and all `a`, `b`, when `min(a, b)` is not a key of
`data` the call `has(a, b)` returns false; and on a freshly constructed relation `has(a, b)`
is false for all `a`, `b`. -/
theorem SymmetricRelation.has_false_of_no_bucket {T : Type} [LinearOrder T]
    (r : SymmetricRelation T) (a b : T) :
    (min a b ∉ r.data → SymmetricRelation.has r a b = false) ∧
      SymmetricRelation.has (SymmetricRelation.empty : SymmetricRelation T) a b = false := by
  have key : ∀ q : SymmetricRelation T, min a b ∉ q.data →
      SymmetricRelation.has q a b = false := by
    intro q hq
    have hnone : StdMap.find q.data (min a b) = none := Finmap.lookup_eq_none.mpr hq
    rw [Bool.eq_false_iff, Ne, has_iff, hnone]
    simp
  exact ⟨key r, key _ (Finmap.not_mem_empty)⟩

/-- C14 at a concrete input: in the relation that holds only the edge `(1, 2)` the element
`3` has no bucket, and `has(5, 3)` returns false. -/
theorem SymmetricRelation.has_false_of_no_bucket_witness :
    min (5 : Int) 3 ∉
        (SymmetricRelation.insert (SymmetricRelation.empty : SymmetricRelation Int) 1 2).data ∧
      SymmetricRelation.has
        (SymmetricRelation.insert (SymmetricRelation.empty : SymmetricRelation Int) 1 2)
        5 3 = false :=
  ⟨by decide,
    (SymmetricRelation.has_false_of_no_bucket
      (SymmetricRelation.insert (SymmetricRelation.empty : SymmetricRelation Int) 1 2)
      5 3).1 (by decide)⟩

/-- C15: in every state reached from the empty relation by a sequence of insert and erase
calls, every key `k` of `data` and every element `v` of the set stored under `k` satisfy
`k ≤ v`. -/
theorem SymmetricRelation.canonical_storage {T : Type} [LinearOrder T]
    (ops : List (RelOp T)) (k : T) (s : StdSet T) (v : T)
    (hk : StdMap.find
      (SymmetricRelation.run (SymmetricRelation.empty : SymmetricRelation T) ops).data k =
        some s)
    (hv : v ∈ s) : k ≤ v := by
  refine canonical_run ops SymmetricRelation.empty ?_ k s v hk hv
  intro k' s' v' hk'
  simp [SymmetricRelation.empty, StdMap.find] at hk'

/-- C15 at a concrete input: after `insert(2, 1); insert(3, 1); erase(1, 3)` on an empty
relation the key `1` stores the set `{2}`, and `1 ≤ 2`. -/
theorem SymmetricRelation.canonical_storage_witness :
    StdMap.find
        (SymmetricRelation.run (SymmetricRelation.empty : SymmetricRelation Int)
          [RelOp.insert 2 1, RelOp.insert 3 1, RelOp.erase 1 3]).data 1 = some {2} ∧
      (2 : Int) ∈ ({2} : Finset Int) ∧ (1 : Int) ≤ 2 :=
  ⟨by decide, by decide,
    SymmetricRelation.canonical_storage
      [RelOp.insert 2 1, RelOp.insert 3 1, RelOp.erase 1 3] 1 {2} 2 (by decide) (by decide)⟩

/-- C16: `has` is symmetric in every state, reachable or not: for every value of `data` and
all `a`, `b`, `has(a, b) = has(b, a)`. -/
theorem SymmetricRelation.has_symmetric {T : Type} [LinearOrder T]
    (r : SymmetricRelation T) (a b : T) :
    SymmetricRelation.has r a b = SymmetricRelation.has r b a :=
  has_congr r Sym2.eq_swap

/-- C17: `has` is read-only. For every relation state and all `a`, `b`, the relation after
`has(a, b)` is the one before the call, so a query creates no bucket; in contrast
`get(1, 2)` on an empty `SymmetricPairMap<int, int>` leaves a map that is no longer empty. -/
theorem SymmetricRelation.has_read_only {T : Type} [LinearOrder T]
    (r : SymmetricRelation T) (a b : T) :
    (SymmetricRelation.hasStep r a b).2.data = r.data ∧
      (SymmetricRelation.hasStep r a b).2.data.keys = r.data.keys ∧
      (SymmetricPairMap.get (SymmetricPairMap.empty : SymmetricPairMap Int Int) 1 2).2.data ≠
        (SymmetricPairMap.empty : SymmetricPairMap Int Int).data := by
  have h : (SymmetricRelation.hasStep r a b).2 = r := by
    unfold SymmetricRelation.hasStep
    dsimp only
    split <;> rfl
  exact ⟨by rw [h], by rw [h], by decide⟩

/-- C18: for every pair map state `m` and all `a`, `b`, `v`, after `m.insert(a, b, v)` the
call `m.get(a, b)` with the arguments in the same order returns `v`, and that call leaves the
map unchanged. -/
theorem SymmetricPairMap.get_after_insert_same_order {T U : Type} [LinearOrder T]
    [Inhabited U] (m : SymmetricPairMap T U) (a b : T) (v : U) :
    (SymmetricPairMap.get (SymmetricPairMap.insert m a b v) a b).1 = v ∧
      (SymmetricPairMap.get (SymmetricPairMap.insert m a b v) a b).2 =
        SymmetricPairMap.insert m a b v := by
  have hf := find_insert_self m a b v
  constructor
  · rw [get_fst, hf]
    rfl
  · show SymmetricPairMap.mk
      (StdMap.subscript (SymmetricPairMap.insert m a b v).data (SymmetricPair.ctor a b)).1 =
        SymmetricPairMap.insert m a b v
    rw [StdMap.subscript_fst_of_find _ hf]

/-- C19: `canonicalize` sorts its two arguments. For all `a`, `b`, after `canonicalize(a, b)`
the two variables hold `(min(a, b), max(a, b))` of the original values, so the first is at
most the second and the two values are the original two as a multiset; a second
`canonicalize` changes nothing, and `canonicalize(b, a)` gives the same result. -/
theorem SymmetricRelation.canonicalize_sorts {T : Type} [LinearOrder T] (a b : T) :
    SymmetricRelation.canonicalize a b = (min a b, max a b) ∧
      (SymmetricRelation.canonicalize a b).1 ≤ (SymmetricRelation.canonicalize a b).2 ∧
      ({(SymmetricRelation.canonicalize a b).1, (SymmetricRelation.canonicalize a b).2} :
        Multiset T) = {a, b} ∧
      SymmetricRelation.canonicalize (SymmetricRelation.canonicalize a b).1
        (SymmetricRelation.canonicalize a b).2 = SymmetricRelation.canonicalize a b ∧
      SymmetricRelation.canonicalize b a = SymmetricRelation.canonicalize a b := by
  refine ⟨canonicalize_eq a b, ?_, ?_, ?_, canonicalize_comm b a⟩
  · rw [canonicalize_eq]
    exact min_le_max
  · unfold SymmetricRelation.canonicalize
    by_cases h : a > b
    · simp only [h, if_true]
      exact Multiset.pair_comm b a
    · simp only [h, if_false]
  · rw [canonicalize_eq, canonicalize_eq]
    simp

end wasm
